import Mathlib

/-!
Verification of the TinyGeo `Vector<T,N>` header (src/include/TinyGeo/Vector.h).

A `Vector<T,N>` stores `N` components of numeric type `T` in a
`std::array<T,N>`; we embed it as the function type `Fin n → T`.
Each C++ member or free function is translated to a Lean definition of the
same name (up to casing); floating-point arithmetic (`float`/`double`) is
modelled by the real numbers, and the debug `assert` failures of the
initializer-list constructor are modelled by an `Option` result.
-/

namespace TinyGeo

/-- The state of a `Vector<T,N>`: its `std::array<T, N> data` member. -/
abbrev Vec (T : Type) (n : ℕ) : Type := Fin n → T

/-- Default constructor `Vector() : data{}` — value-initializes every
component of `data` to zero. -/
def mkDefault (T : Type) [Zero T] (n : ℕ) : Vec T n := fun _ => 0

/-- Constructor `Vector(std::initializer_list<T> list)`: it asserts
`list.size() == N` and then copies element `i` of the list into `data[i]`.
The aborting assertion failure is modelled as `none`. -/
def ofList {T : Type} (n : ℕ) (l : List T) : Option (Vec T n) :=
  if h : l.length = n then
    some (fun i => l.get ⟨i.val, by rw [h]; exact i.isLt⟩)
  else
    none

/-- Member `operator+=`: `data[i] += other[i]` for every `i`. -/
def addAssign {T : Type} [Add T] {n : ℕ} (a other : Vec T n) : Vec T n :=
  fun i => a i + other i

/-- Member `operator-=`: `data[i] -= other[i]` for every `i`. -/
def subAssign {T : Type} [Sub T] {n : ℕ} (a other : Vec T n) : Vec T n :=
  fun i => a i - other i

/-- Member `operator*=`: `data[i] *= scalar` for every `i`. -/
def mulAssign {T : Type} [Mul T] {n : ℕ} (a : Vec T n) (scalar : T) : Vec T n :=
  fun i => a i * scalar

/-- Member `operator/=`: computes `inv_scalar = T(1) / scalar` once and then
performs `data[i] *= inv_scalar` for every `i` (one division, `N`
multiplications). -/
def divAssign {T : Type} [DivisionRing T] {n : ℕ} (a : Vec T n) (scalar : T) : Vec T n :=
  let inv_scalar : T := 1 / scalar
  fun i => a i * inv_scalar

/-- Free `operator+`: copies `lhs` and applies `operator+=`. -/
def addOp {T : Type} [Add T] {n : ℕ} (lhs rhs : Vec T n) : Vec T n :=
  addAssign lhs rhs

/-- Free `operator-`: copies `lhs` and applies `operator-=`. -/
def subOp {T : Type} [Sub T] {n : ℕ} (lhs rhs : Vec T n) : Vec T n :=
  subAssign lhs rhs

/-- Free `operator*` with the scalar on the right (`v * s`): copies `lhs`
and applies `operator*=`. -/
def mulOpVS {T : Type} [Mul T] {n : ℕ} (lhs : Vec T n) (scalar : T) : Vec T n :=
  mulAssign lhs scalar

/-- Free `operator*` with the scalar on the left (`s * v`): copies `rhs`
and applies `operator*=`. -/
def mulOpSV {T : Type} [Mul T] {n : ℕ} (scalar : T) (rhs : Vec T n) : Vec T n :=
  mulAssign rhs scalar

/-- Free `operator/` (`v / s`): copies `lhs` and applies `operator/=`. -/
def divOp {T : Type} [DivisionRing T] {n : ℕ} (lhs : Vec T n) (scalar : T) : Vec T n :=
  divAssign lhs scalar

/-- Member `dot`: `sum = T(0); for i: sum += data[i] * other[i]; return sum`. -/
def dot {T : Type} [Add T] [Mul T] [Zero T] {n : ℕ} (a other : Vec T n) : T :=
  (List.finRange n).foldl (fun sum i => sum + a i * other i) 0

/-- Free function `dot(a, b)`: delegates to the member `a.dot(b)`. -/
def dotFree {T : Type} [Add T] [Mul T] [Zero T] {n : ℕ} (a b : Vec T n) : T :=
  dot a b

/-- Member `cross` (only instantiable at `N == 3`):
`(y·b.z − z·b.y, z·b.x − x·b.z, x·b.y − y·b.x)` where `x/y/z` read
components `0/1/2`. -/
def cross {T : Type} [Mul T] [Sub T] (a other : Vec T 3) : Vec T 3 :=
  ![a 1 * other 2 - a 2 * other 1,
    a 2 * other 0 - a 0 * other 2,
    a 0 * other 1 - a 1 * other 0]

/-- Free function `cross(a, b)`: delegates to the member `a.cross(b)`. -/
def crossFree {T : Type} [Mul T] [Sub T] (a b : Vec T 3) : Vec T 3 :=
  cross a b

/-- Member `normSq`: `dot(*this)`, i.e. `v · v`. -/
def normSq {T : Type} [Add T] [Mul T] [Zero T] {n : ℕ} (v : Vec T n) : T :=
  dot v v

/-- Member `norm`: `std::sqrt(normSq())`, modelled over the reals. -/
noncomputable def norm {n : ℕ} (v : Vec ℝ n) : ℝ :=
  Real.sqrt (normSq v)

/-- Member `normalized` as a call on the receiver state: the method is
`const`, so it returns the computed vector together with the unchanged
receiver.  Body: `len = norm(); if (len < T(1e-8)) return Vector();
return (*this) / len;`. -/
noncomputable def normalizedCall {n : ℕ} (v : Vec ℝ n) : Vec ℝ n × Vec ℝ n :=
  let len := norm v
  (if len < (1e-8 : ℝ) then mkDefault ℝ n else divOp v len, v)

/-- The value returned by `normalized()`. -/
noncomputable def normalized {n : ℕ} (v : Vec ℝ n) : Vec ℝ n :=
  (normalizedCall v).1

/-- Member `normalize`: `*this = normalized()`. -/
noncomputable def normalizeAssign {n : ℕ} (v : Vec ℝ n) : Vec ℝ n :=
  normalized v

/-- Stream output `operator<<`: writes `"["`, then for each index `i` the
component `v[i]` followed by `", "` exactly when `i < N - 1`, then `"]"`.
The accumulated stream contents are modelled as a `String` and the
per-component rendering of `T` by a function `f`. -/
def render {T : Type} (f : T → String) {n : ℕ} (v : Vec T n) : String :=
  ((List.finRange n).foldl
    (fun os i => os ++ f (v i) ++ (if i.val < n - 1 then ", " else "")) "[") ++ "]"

/-- Modelled from the spec: joins already-rendered components with the
separator `", "` between consecutive elements and no trailing separator. -/
def joinComma : List String → String
  | [] => ""
  | [s] => s
  | s :: rest => s ++ ", " ++ joinComma rest

/-- Modelled from the spec: a vector renders as the open bracket, the
comma-and-space separated components in index order, and the close
bracket. -/
def renderSpec {T : Type} (f : T → String) {n : ℕ} (v : Vec T n) : String :=
  "[" ++ joinComma ((List.finRange n).map fun i => f (v i)) ++ "]"

end TinyGeo

namespace TinyGeo

/-- helper: a left fold that keeps adding terms onto an accumulator is the
accumulator plus the sum of the mapped list. -/
theorem foldl_add_eq {T : Type} [AddMonoid T] {α : Type} (f : α → T) :
    ∀ (l : List α) (a : T), l.foldl (fun s x => s + f x) a = a + (l.map f).sum := by
  intro l
  induction l with
  | nil => intro a; simp
  | cons x xs ih =>
      intro a
      simp only [List.foldl_cons, List.map_cons, List.sum_cons, ih, add_assoc]

/-- helper: the `dot` accumulation loop computes the finite sum of the
componentwise products. -/
theorem dot_eq_sum {T : Type} [AddCommMonoid T] [Mul T] {n : ℕ} (a b : Vec T n) :
    dot a b = ∑ i : Fin n, a i * b i := by
  rw [dot, foldl_add_eq, zero_add, ← Fin.sum_univ_def]

/-- C8: a default-constructed `Vector<T,N>` has every one of its `N`
components equal to zero. -/
theorem mkDefault_eq_zero (T : Type) [Zero T] (n : ℕ) :
    ∀ i : Fin n, mkDefault T n i = 0 :=
  fun _ => rfl

/-- C7: `v * s` and `s * v` agree component-wise, each component being
`v[i]` scaled by `s`; both operators copy their vector operand, so neither
operand is mutated. -/
theorem mul_scalar_comm {T : Type} [Mul T] {n : ℕ} (v : Vec T n) (s : T) :
    mulOpVS v s = mulOpSV s v ∧ ∀ i : Fin n, mulOpVS v s i = v i * s :=
  ⟨rfl, fun _ => rfl⟩

/-- C4: on the concrete inputs `unitX = (1,0,0)` and `unitY = (0,1,0)`,
`cross(unitX, unitY) = (0,0,1)` and `cross(unitY, unitX) = (0,0,-1)`
(right-handed convention). -/
theorem cross_units :
    cross (![1, 0, 0] : Vec ℝ 3) ![0, 1, 0] = ![0, 0, 1] ∧
    cross (![0, 1, 0] : Vec ℝ 3) ![1, 0, 0] = ![0, 0, -1] := by
  constructor <;> (funext i; fin_cases i <;> simp [cross])

/-- C5: for all 3-dimensional vectors `a` and `b`, `cross(a, b)` is the
component-wise negation of `cross(b, a)`. -/
theorem cross_anticomm {T : Type} [CommRing T] (a b : Vec T 3) :
    cross a b = fun i => -(cross b a i) := by
  funext i
  fin_cases i <;> (simp [cross]; ring)

/-- C6: for vectors of dimension `N ≥ 1`, `dot(a, b) = dot(b, a)` and both
equal the sum over `i` of `a[i] * b[i]`. -/
theorem dot_symm_eq_sum {T : Type} [CommRing T] {n : ℕ} (a b : Vec T n)
    (_h : 1 ≤ n) :
    dot a b = dot b a ∧ dot a b = ∑ i : Fin n, a i * b i := by
  refine ⟨?_, dot_eq_sum a b⟩
  rw [dot_eq_sum, dot_eq_sum]
  exact Finset.sum_congr rfl fun i _ => mul_comm (a i) (b i)

/-- Witness for C6 at `a = (1,2)`, `b = (3,4)` over `ℤ`. -/
theorem dot_symm_eq_sum_witness :
    1 ≤ 2 ∧
    (dot (![1, 2] : Vec ℤ 2) ![3, 4] = dot ![3, 4] ![1, 2] ∧
     dot (![1, 2] : Vec ℤ 2) ![3, 4] = ∑ i : Fin 2, (![1, 2] : Vec ℤ 2) i * (![3, 4] : Vec ℤ 2) i) :=
  ⟨by decide, dot_symm_eq_sum ![1, 2] ![3, 4] (by decide)⟩

/-- C1: for `s ≠ 0`, the compound form `v /= s` and the binary form `v / s`
both produce the vector whose component `i` is `v[i] / s`; the
reciprocal-then-multiply scheme of the implementation is equivalent to the
per-element division. -/
theorem div_scalar_spec {T : Type} [Field T] {n : ℕ} (v : Vec T n) (s : T)
    (_hs : s ≠ 0) :
    divAssign v s = (fun i => v i / s) ∧ divOp v s = (fun i => v i / s) := by
  have hdiv : divAssign v s = fun i => v i / s := by
    funext i
    show v i * (1 / s) = v i / s
    rw [one_div, div_eq_mul_inv]
  exact ⟨hdiv, hdiv⟩

/-- Witness for C1 at `v = (1,2,3)`, `s = 2` over `ℚ`. -/
theorem div_scalar_spec_witness :
    (2 : ℚ) ≠ 0 ∧
    (divAssign (![1, 2, 3] : Vec ℚ 3) 2 = (fun i => (![1, 2, 3] : Vec ℚ 3) i / 2) ∧
     divOp (![1, 2, 3] : Vec ℚ 3) 2 = (fun i => (![1, 2, 3] : Vec ℚ 3) i / 2)) :=
  ⟨by decide, div_scalar_spec ![1, 2, 3] 2 (by decide)⟩

/-- C3: constructing a vector from a list of exactly `N` values sets
component `i` to list element `i`; a length mismatch is an assertion
failure (modelled as `none`) rather than a vector. -/
theorem ofList_spec {T : Type} (n : ℕ) (l : List T) :
    (l.length = n →
      ∃ v : Vec T n, ofList n l = some v ∧
        ∀ (i : Fin n) (hi : i.val < l.length), v i = l.get ⟨i.val, hi⟩) ∧
    (l.length ≠ n → ofList n l = none) := by
  constructor
  · intro h
    refine ⟨fun i => l.get ⟨i.val, by rw [h]; exact i.isLt⟩, ?_, ?_⟩
    · rw [ofList, dif_pos h]
    · intro i hi; rfl
  · intro h
    rw [ofList, dif_neg h]

/-- Witness for C3: a matching list of length 2 yields a vector with the
listed components, and a list of length 1 fails the `N = 2` precondition. -/
theorem ofList_spec_witness :
    (([7, 8] : List ℤ).length = 2 ∧ ofList 2 ([7, 8] : List ℤ) = some ![7, 8]) ∧
    (([7] : List ℤ).length ≠ 2 ∧ ofList 2 ([7] : List ℤ) = none) := by
  refine ⟨⟨rfl, ?_⟩, by decide, (ofList_spec 2 [7]).2 (by decide)⟩
  obtain ⟨v, hv, hcomp⟩ := (ofList_spec 2 ([7, 8] : List ℤ)).1 rfl
  rw [hv]
  congr 1
  funext i
  fin_cases i <;> rw [hcomp _ (by decide)] <;> decide

/-- helper: `normSq` is a sum of squares, hence nonnegative over the reals. -/
theorem normSq_nonneg {n : ℕ} (v : Vec ℝ n) : 0 ≤ normSq v := by
  rw [normSq, dot_eq_sum]
  exact Finset.sum_nonneg fun i _ => mul_self_nonneg (v i)

/-- helper: scaling every component by `c` scales `normSq` by `c ^ 2`. -/
theorem normSq_scale {n : ℕ} (v : Vec ℝ n) (c : ℝ) :
    normSq (fun i => v i * c) = c ^ 2 * normSq v := by
  rw [normSq, dot_eq_sum, normSq, dot_eq_sum, Finset.mul_sum]
  exact Finset.sum_congr rfl fun i _ => by ring

/-- helper: scaling every component by a nonnegative `c` scales `norm`
by `c`. -/
theorem norm_scale {n : ℕ} (v : Vec ℝ n) (c : ℝ) (hc : 0 ≤ c) :
    norm (fun i => v i * c) = c * norm v := by
  rw [norm, normSq_scale, norm, Real.sqrt_mul (sq_nonneg c), Real.sqrt_sq hc]

/-- C2: `normalized()` leaves the receiver unchanged; when `norm(v) < 1e-8`
it returns the all-zero vector, and otherwise it returns the vector whose
component `i` is `v[i] / norm(v)`, which has unit length. -/
theorem normalized_spec {n : ℕ} (v : Vec ℝ n) :
    (normalizedCall v).2 = v ∧
    (norm v < (1e-8 : ℝ) → normalized v = mkDefault ℝ n) ∧
    ((1e-8 : ℝ) ≤ norm v →
      normalized v = (fun i => v i / norm v) ∧ norm (normalized v) = 1) := by
  refine ⟨rfl, fun h => ?_, fun h => ?_⟩
  · simp only [normalized, normalizedCall]
    rw [if_pos h]
  · have hlt : ¬ norm v < (1e-8 : ℝ) := not_lt.mpr h
    have hpos : 0 < norm v := lt_of_lt_of_le (by norm_num) h
    have hne : norm v ≠ 0 := ne_of_gt hpos
    have heq : normalized v = fun i => v i * (1 / norm v) := by
      simp only [normalized, normalizedCall]
      rw [if_neg hlt]
      rfl
    constructor
    · rw [heq]
      funext i
      rw [one_div, div_eq_mul_inv]
    · rw [heq, norm_scale v (1 / norm v) (by positivity), one_div,
        inv_mul_cancel₀ hne]

/-- helper: the norm of the concrete vector `(3, 4, 0)` is `5`. -/
theorem norm_three_four_zero : norm (![3, 4, 0] : Vec ℝ 3) = 5 := by
  rw [norm, normSq, dot_eq_sum, Fin.sum_univ_three]
  norm_num
  rw [show (25 : ℝ) = 5 ^ 2 by norm_num, Real.sqrt_sq (by norm_num)]

/-- helper: the norm of `(3, 4, 0)` is at least the `1e-8` tolerance. -/
theorem norm_three_four_zero_ge : (1e-8 : ℝ) ≤ norm (![3, 4, 0] : Vec ℝ 3) := by
  rw [norm_three_four_zero]
  norm_num

/-- Witness for C2 at `v = (3, 4, 0)`, whose norm `5` is above the
tolerance. -/
theorem normalized_spec_witness :
    (1e-8 : ℝ) ≤ norm (![3, 4, 0] : Vec ℝ 3) ∧
    norm (normalized (![3, 4, 0] : Vec ℝ 3)) = 1 :=
  ⟨norm_three_four_zero_ge,
    ((normalized_spec (![3, 4, 0] : Vec ℝ 3)).2.2 norm_three_four_zero_ge).2⟩

/-- C10: whenever `normalized()` takes the division path (the guard
`norm(v) < 1e-8` fails), the divisor `norm(v)` is at least `1e-8` and in
particular nonzero, so the zero-divisor precondition of `operator/` holds. -/
theorem norm_divisor_nonzero {n : ℕ} (v : Vec ℝ n)
    (h : ¬ norm v < (1e-8 : ℝ)) :
    (1e-8 : ℝ) ≤ norm v ∧ norm v ≠ 0 := by
  have h' := not_lt.mp h
  exact ⟨h', ne_of_gt (lt_of_lt_of_le (by norm_num) h')⟩

/-- Witness for C10 at `v = (3, 4, 0)`. -/
theorem norm_divisor_nonzero_witness :
    ¬ norm (![3, 4, 0] : Vec ℝ 3) < (1e-8 : ℝ) ∧
    ((1e-8 : ℝ) ≤ norm (![3, 4, 0] : Vec ℝ 3) ∧ norm (![3, 4, 0] : Vec ℝ 3) ≠ 0) :=
  ⟨not_lt.mpr norm_three_four_zero_ge,
    norm_divisor_nonzero _ (not_lt.mpr norm_three_four_zero_ge)⟩

/-- helper: a left fold that keeps appending strings onto an accumulator is
the accumulator followed by the right fold of the appended pieces. -/
theorem foldl_append_eq {α : Type} (g : α → String) :
    ∀ (l : List α) (a : String),
      l.foldl (fun acc x => acc ++ g x) a = a ++ l.foldr (fun x r => g x ++ r) "" := by
  intro l
  induction l with
  | nil => intro a; simp
  | cons x xs ih =>
      intro a
      simp only [List.foldl_cons, List.foldr_cons, ih, String.append_assoc]

/-- helper: `joinComma` on a cons with a nonempty tail inserts one
separator. -/
theorem joinComma_cons (s : String) (l : List String) (hl : l ≠ []) :
    joinComma (s :: l) = s ++ ", " ++ joinComma l := by
  cases l with
  | nil => exact absurd rfl hl
  | cons x xs => rfl

/-- helper: folding the components with the position-dependent separator of
the output loop produces the comma-joined component list. -/
theorem foldr_sep_eq :
    ∀ (n : ℕ) (g : Fin n → String),
      (List.finRange n).foldr
        (fun i r => (g i ++ if i.val < n - 1 then ", " else "") ++ r) "" =
      joinComma ((List.finRange n).map g) := by
  intro n
  induction n with
  | zero => intro g; simp [List.finRange_zero, joinComma]
  | succ m ih =>
      intro g
      rw [List.finRange_succ_eq_map, List.map_cons, List.foldr_cons, List.foldr_map,
        List.map_map]
      simp only [Nat.add_sub_cancel, Fin.val_succ, Fin.val_zero, Function.comp_def]
      cases m with
      | zero => simp [List.finRange_zero, joinComma]
      | succ k =>
          have hne : ((List.finRange (k + 1)).map fun j => g j.succ) ≠ [] := by
            rw [List.finRange_succ_eq_map]
            simp
          rw [joinComma_cons _ _ hne, ← ih (fun j => g j.succ)]
          simp only [Nat.add_lt_add_iff_right, Nat.add_sub_cancel, Nat.succ_pos,
            if_true, String.append_assoc]

/-- C9: the stream output renders exactly the open bracket, the components
in index order separated by comma-and-space with no trailing separator, and
the close bracket. -/
theorem render_eq_renderSpec {T : Type} (f : T → String) {n : ℕ} (v : Vec T n) :
    render f v = renderSpec f v := by
  rw [render, renderSpec]
  simp only [String.append_assoc]
  rw [foldl_append_eq (fun i => f (v i) ++ (if i.val < n - 1 then ", " else ""))]
  rw [show (fun (i : Fin n) (r : String) =>
        (f (v i) ++ (if i.val < n - 1 then ", " else "")) ++ r) =
      (fun (i : Fin n) (r : String) =>
        ((fun j => f (v j)) i ++ if i.val < n - 1 then ", " else "") ++ r) from rfl]
  rw [foldr_sep_eq n (fun i => f (v i))]
  simp [String.append_assoc]

end TinyGeo
